import Mathlib

/-!
Shallow embedding of the OpenMDAO test/benchmark sources
(`test_solver_parametric_suite.py`, `expl_comp_array.py`,
`benchmark_param_cycle.py`, `test_meta_model_semi_structured_comp.py`)
and of the solver / Jacobian core that those tests exercise, as described
by the specification.  Machine floating point is modelled by exact
rationals, so every tolerance-style statement is settled exactly.
-/

open Matrix

/-! ### ImplComp4Test (embedded from `test_solver_parametric_suite.py`) -/

/-- The 2x2 coefficient matrix set in `ImplComp4Test.initialize_variables`:
`self.mtx = np.array([[3., 4.], [2., 3.]])`. -/
def impl4_mtx : Matrix (Fin 2) (Fin 2) ℚ := !![3, 4; 2, 3]

/-- Embeds `ImplComp4Test.apply_nonlinear`:
`residuals["y"] = self.mtx.dot(outputs["y"]) - inputs["x"]`. -/
def impl4_apply_nonlinear (x y : Fin 2 → ℚ) : Fin 2 → ℚ :=
  impl4_mtx.mulVec y - x

/-- Reads a rational matrix as a total function on natural indices
(entries outside the shape are 0); used to store dense blocks of varying
shapes in one partials store and to place blocks in assembled Jacobians. -/
def mnat {m n : ℕ} (A : Matrix (Fin m) (Fin n) ℚ) (i j : ℕ) : ℚ :=
  if hi : i < m then if hj : j < n then A ⟨i, hi⟩ ⟨j, hj⟩ else 0 else 0

/-- Embeds `ImplComp4Test.linearize`: it writes
`partials["y", "x"] = -np.eye(2)` and `partials["y", "y"] = self.mtx` into
the partials store and leaves every other entry of the store untouched.
The store is modelled as a map from (of-variable, wrt-variable) name pairs
to optional dense blocks. -/
def impl4_linearize (_x _y : Fin 2 → ℚ)
    (p : String × String → Option (ℕ → ℕ → ℚ)) :
    String × String → Option (ℕ → ℕ → ℚ) :=
  fun k =>
    if k = ("y", "x") then some (mnat (-1 : Matrix (Fin 2) (Fin 2) ℚ))
    else if k = ("y", "y") then some (mnat impl4_mtx)
    else p k

/-! ### Linear and nonlinear solvers (modelled from the spec) -/

/-- Modelled from the spec: the direct linear solver (spec 4.6), whose
implementation is not under `src/`.  The forward-mode solve applies the
factorization (here the exact inverse, in adjugate form) to the
`d_residuals` seed, producing `d_outputs`. -/
def directSolveFwd {n : ℕ} (A : Matrix (Fin n) (Fin n) ℚ) (u : Fin n → ℚ) :
    Fin n → ℚ :=
  (A.det)⁻¹ • (A.adjugate.mulVec u)

/-- Modelled from the spec: the reverse-mode direct solve (spec 4.6) applies
the factorization transpose to the `d_outputs` seed, producing
`d_residuals`. -/
def directSolveRev {n : ℕ} (A : Matrix (Fin n) (Fin n) ℚ) (v : Fin n → ℚ) :
    Fin n → ℚ :=
  directSolveFwd Aᵀ v

/-- Modelled from the spec: the Newton solver (spec 4.5), whose
implementation is not under `src/`.  Each iteration linearizes, solves
`J · Δ = r` with the direct linear solver and applies the full update
`y ← y - Δ`. -/
def newtonIter {n : ℕ} (J : Matrix (Fin n) (Fin n) ℚ)
    (r : (Fin n → ℚ) → Fin n → ℚ) : ℕ → (Fin n → ℚ) → Fin n → ℚ
  | 0, y => y
  | k + 1, y => newtonIter J r k (y - directSolveFwd J (r y))

/-- Modelled from the spec: fixed-point (nonlinear block Gauss-Seidel)
iteration (spec 4.5), whose implementation is not under `src/`.  One sweep
over all components is an update map `g`; running the solver for `k`
iterations iterates `g`. -/
def fixedPointIter {n : ℕ} (g : (Fin n → ℚ) → Fin n → ℚ) :
    ℕ → (Fin n → ℚ) → Fin n → ℚ
  | 0, y => y
  | k + 1, y => fixedPointIter g k (g y)

/-- Result of a nonlinear solver run: a caller-visible convergence flag and
the variable vector as the solver left it. -/
structure SolverResult (n : ℕ) where
  converged : Bool
  y : Fin n → ℚ

/-- Modelled from the spec: the failure semantics of nonlinear solver runs
(spec 4.5 and 7), whose implementation is not under `src/`.  The solver
performs up to `maxiter` iterations; if the convergence test never passes
it returns a failure flag together with the last iterate — it neither
raises nor rolls the variable vector back. -/
def runNonlinear {n : ℕ} (step : (Fin n → ℚ) → Fin n → ℚ)
    (convTest : (Fin n → ℚ) → Bool) : ℕ → (Fin n → ℚ) → SolverResult n
  | 0, y => ⟨convTest y, y⟩
  | k + 1, y =>
      if convTest y then ⟨true, y⟩
      else runNonlinear step convTest k (step y)

/-! ### Jacobian backing stores (modelled from the spec) -/

/-- One sparse coordinate entry: a value at a global row/column position. -/
structure Triplet where
  row : ℕ
  col : ℕ
  val : ℚ
deriving DecidableEq

/-- Modelled from the spec: the COO / sparse-triplet Jacobian store
(spec 4.4), whose implementation is not under `src/`.  The dense entry at
`(i, j)` is the sum of all declared values at that position; positions no
triplet touches are zero. -/
def tripletsToDense : List Triplet → ℕ → ℕ → ℚ
  | [], _, _ => 0
  | t :: ts, i, j =>
      (if t.row = i ∧ t.col = j then t.val else 0) + tripletsToDense ts i j

/-- Modelled from the spec: the CSR Jacobian store (spec 4.4), whose
implementation is not under `src/`.  Row pointers delimit, inside
`colInd` / `vals`, the entries of each row; the dense entry at `(i, j)`
sums the stored values of row `i` whose column index is `j`. -/
def csrToDense (rowPtr colInd : List ℕ) (vals : List ℚ) (i j : ℕ) : ℚ :=
  ∑ k ∈ Finset.range vals.length,
    if rowPtr.getD i 0 ≤ k ∧ k < rowPtr.getD (i + 1) 0 ∧ colInd.getD k 0 = j
    then vals.getD k 0 else 0

/-- A dense partial-derivative block placed at global offsets
(`r0`, `c0`) with shape `nr × nc`. -/
structure JBlock where
  r0 : ℕ
  c0 : ℕ
  nr : ℕ
  nc : ℕ
  val : ℕ → ℕ → ℚ

/-- Modelled from the spec: dense Jacobian assembly (spec 4.4), whose
implementation is not under `src/`.  Every declared block is added into an
initially-zero dense matrix at its global offsets, so overlapping
declarations accumulate and untouched entries stay zero. -/
def denseAssemble (blocks : List JBlock) (i j : ℕ) : ℚ :=
  (blocks.map (fun b =>
    if b.r0 ≤ i ∧ i < b.r0 + b.nr ∧ b.c0 ≤ j ∧ j < b.c0 + b.nc
    then b.val (i - b.r0) (j - b.c0) else 0)).sum

/-! ### The four Jacobian representations of `test_direct_solver_comp` -/

/-- The `dict` (default) Jacobian of `test_direct_solver_comp`: the square
d_residual/d_output system operator read straight from the `("y", "y")`
block that `ImplComp4Test.linearize` stores (initial inputs and outputs are
`np.ones(2)`). -/
def impl4_dictAssembled : Matrix (Fin 2) (Fin 2) ℚ :=
  Matrix.of fun i j =>
    ((impl4_linearize ![1, 1] ![1, 1] (fun _ => none)) ("y", "y")).getD
      (fun _ _ => 0) i j

/-- The `coo` (COOmatrix) backing of the same system operator: the four
nonzero entries of the `("y", "y")` block as triplets. -/
def impl4_coo : List Triplet :=
  [⟨0, 0, 3⟩, ⟨0, 1, 4⟩, ⟨1, 0, 2⟩, ⟨1, 1, 3⟩]

/-- The system matrix assembled from the COO backing. -/
def impl4_cooAssembled : Matrix (Fin 2) (Fin 2) ℚ :=
  Matrix.of fun i j => tripletsToDense impl4_coo i j

/-- Row pointers of the `csr` (CSRmatrix) backing of the same operator. -/
def impl4_csrRowPtr : List ℕ := [0, 2, 4]

/-- Column indices of the CSR backing. -/
def impl4_csrColInd : List ℕ := [0, 1, 0, 1]

/-- Stored values of the CSR backing. -/
def impl4_csrVals : List ℚ := [3, 4, 2, 3]

/-- The system matrix assembled from the CSR backing. -/
def impl4_csrAssembled : Matrix (Fin 2) (Fin 2) ℚ :=
  Matrix.of fun i j =>
    csrToDense impl4_csrRowPtr impl4_csrColInd impl4_csrVals i j

/-- The `dense` (DenseMatrix) backing: the single `("y", "y")` block written
into a zero 2x2 matrix at offset (0, 0). -/
def impl4_denseAssembled : Matrix (Fin 2) (Fin 2) ℚ :=
  Matrix.of fun i j => denseAssemble [⟨0, 0, 2, 2, mnat impl4_mtx⟩] i j

/-! ### Total derivatives (modelled from the spec) -/

/-- Modelled from the spec: the linearized residual of a system whose
Jacobian with respect to the outputs is `M`, at right-hand side `b`
(spec 4.5 and 4.7; the total-derivative engine is not under `src/`). -/
def linResidual {n : ℕ} (M : Matrix (Fin n) (Fin n) ℚ) (b : Fin n → ℚ)
    (y : Fin n → ℚ) : Fin n → ℚ :=
  M.mulVec y - b

/-- Modelled from the spec: the solved outputs of the linearized model with
output Jacobian `M` and design Jacobian `P` at design point `x`
(spec 4.7). -/
def solvedOutputs {n m : ℕ} (M : Matrix (Fin n) (Fin n) ℚ)
    (P : Matrix (Fin n) (Fin m) ℚ) (x : Fin m → ℚ) : Fin n → ℚ :=
  directSolveFwd M (P.mulVec x)

/-- Modelled from the spec: `compute_totals` in forward mode (spec 4.7,
not under `src/`) — seed the linear system with the design-variable column,
solve forward, extract the response. -/
def totalDerivFwd {n m : ℕ} (M : Matrix (Fin n) (Fin n) ℚ)
    (P : Matrix (Fin n) (Fin m) ℚ) (g : Fin n → ℚ) (d : Fin m) : ℚ :=
  g ⬝ᵥ directSolveFwd M (P.mulVec (Pi.single d (1 : ℚ)))

/-- Modelled from the spec: `compute_totals` in reverse mode (spec 4.7,
not under `src/`) — seed the adjoint system with the response, solve in
reverse, extract the design-variable component. -/
def totalDerivRev {n m : ℕ} (M : Matrix (Fin n) (Fin n) ℚ)
    (P : Matrix (Fin n) (Fin m) ℚ) (g : Fin n → ℚ) (d : Fin m) : ℚ :=
  directSolveRev M g ⬝ᵥ P.mulVec (Pi.single d (1 : ℚ))

/-- Modelled from the spec: the finite-difference total-derivative
reference (spec 4.7 and 6): difference the solved response under a design
perturbation of step `h`. -/
def fdTotalDeriv {n m : ℕ} (M : Matrix (Fin n) (Fin n) ℚ)
    (P : Matrix (Fin n) (Fin m) ℚ) (g : Fin n → ℚ) (x : Fin m → ℚ)
    (d : Fin m) (h : ℚ) : ℚ :=
  (g ⬝ᵥ solvedOutputs M P (x + h • (Pi.single d 1 : Fin m → ℚ)) - g ⬝ᵥ solvedOutputs M P x) / h

/-- Modelled from the spec: finite-differenced partial derivatives
(`partial_method="fd"` in the benchmark; the FD engine is not under
`src/`): column `j` is the residual difference quotient with step `h`. -/
def fdJac {n : ℕ} (r : (Fin n → ℚ) → Fin n → ℚ) (y : Fin n → ℚ) (h : ℚ) :
    Matrix (Fin n) (Fin n) ℚ :=
  Matrix.of fun i j => (r (y + h • (Pi.single j 1 : Fin n → ℚ)) i - r y i) / h

/-! ### The cycle benchmark dimensions and convergence machinery -/

/-- Flattened state size of the `benchmark_param_cycle` sweep:
200 components, 5 variables each, each of shape (3,). -/
def cycleDim : ℕ := 200 * 5 * 3

/-- Sup norm of a rational vector, used to state solver tolerances. -/
def vnorm {n : ℕ} (v : Fin n → ℚ) : ℚ :=
  Finset.univ.fold max 0 (fun i => |v i|)

/-! ### TestExplCompArray (embedded from `expl_comp_array.py`) -/

/-- Embeds `TestExplCompArray.compute`, first output:
`outputs["areas"] = inputs["lengths"] * inputs["widths"]` (elementwise on
the flattened 2x2 arrays). -/
def explArray_areas (lengths widths : Fin 4 → ℚ) : Fin 4 → ℚ :=
  fun i => lengths i * widths i

/-- Embeds `TestExplCompArray.compute`, second output:
`outputs["total_volume"] = np.sum(outputs["areas"]) * thk`. -/
def explArray_total_volume (lengths widths : Fin 4 → ℚ) (thk : ℚ) : ℚ :=
  (∑ i, lengths i * widths i) * thk

/-- Embeds the `TestExplCompArrayDense` block
`partials["areas", "lengths"] = np.diag(inputs["widths"].flatten())`. -/
def explDense_areas_lengths (widths : Fin 4 → ℚ) : Matrix (Fin 4) (Fin 4) ℚ :=
  Matrix.diagonal widths

/-- Embeds the `TestExplCompArrayDense` block
`partials["areas", "widths"] = np.diag(inputs["lengths"].flatten())`. -/
def explDense_areas_widths (lengths : Fin 4 → ℚ) : Matrix (Fin 4) (Fin 4) ℚ :=
  Matrix.diagonal lengths

/-- Embeds the `TestExplCompArrayDense` block
`partials["total_volume", "lengths"] = inputs["widths"].flatten() * thk`,
a 1x4 row. -/
def explDense_tv_lengths (widths : Fin 4 → ℚ) (thk : ℚ) : Fin 4 → ℚ :=
  fun j => widths j * thk

/-- Embeds the `TestExplCompArrayDense` block
`partials["total_volume", "widths"] = inputs["lengths"].flatten() * thk`. -/
def explDense_tv_widths (lengths : Fin 4 → ℚ) (thk : ℚ) : Fin 4 → ℚ :=
  fun j => lengths j * thk

/-- Embeds the `TestExplCompArraySpmtx` block
`csr_matrix((inputs["widths"].flatten(), (inds, inds)))` with
`inds = np.arange(4)`, as its defining triplets. -/
def explSpmtx_areas_lengths (widths : Fin 4 → ℚ) : List Triplet :=
  [⟨0, 0, widths 0⟩, ⟨1, 1, widths 1⟩, ⟨2, 2, widths 2⟩, ⟨3, 3, widths 3⟩]

/-- Embeds the `TestExplCompArraySpmtx` block
`csr_matrix((inputs["lengths"].flatten(), (inds, inds)))`. -/
def explSpmtx_areas_widths (lengths : Fin 4 → ℚ) : List Triplet :=
  [⟨0, 0, lengths 0⟩, ⟨1, 1, lengths 1⟩, ⟨2, 2, lengths 2⟩, ⟨3, 3, lengths 3⟩]

/-- Embeds the `TestExplCompArraySpmtx` block
`csr_matrix((inputs["widths"].flatten() * thk, ([0], inds)))`; scipy
broadcasts the row list `[0]` over the four values. -/
def explSpmtx_tv_lengths (widths : Fin 4 → ℚ) (thk : ℚ) : List Triplet :=
  [⟨0, 0, widths 0 * thk⟩, ⟨0, 1, widths 1 * thk⟩,
   ⟨0, 2, widths 2 * thk⟩, ⟨0, 3, widths 3 * thk⟩]

/-- Embeds the `TestExplCompArraySpmtx` block
`csr_matrix((inputs["lengths"].flatten() * thk, ([0], inds)))`. -/
def explSpmtx_tv_widths (lengths : Fin 4 → ℚ) (thk : ℚ) : List Triplet :=
  [⟨0, 0, lengths 0 * thk⟩, ⟨0, 1, lengths 1 * thk⟩,
   ⟨0, 2, lengths 2 * thk⟩, ⟨0, 3, lengths 3 * thk⟩]

/-- Embeds the `TestExplCompArraySparse` aij declaration
`(inputs["widths"].flatten(), inds, inds)`. -/
def explSparse_areas_lengths (widths : Fin 4 → ℚ) : List Triplet :=
  [⟨0, 0, widths 0⟩, ⟨1, 1, widths 1⟩, ⟨2, 2, widths 2⟩, ⟨3, 3, widths 3⟩]

/-- Embeds the `TestExplCompArraySparse` aij declaration
`(inputs["lengths"].flatten(), inds, inds)`. -/
def explSparse_areas_widths (lengths : Fin 4 → ℚ) : List Triplet :=
  [⟨0, 0, lengths 0⟩, ⟨1, 1, lengths 1⟩, ⟨2, 2, lengths 2⟩, ⟨3, 3, lengths 3⟩]

/-- Embeds the `TestExplCompArraySparse` aij declaration
`(inputs["widths"].flatten() * thk, [0], inds)`; the row list `[0]` is
broadcast over the four values. -/
def explSparse_tv_lengths (widths : Fin 4 → ℚ) (thk : ℚ) : List Triplet :=
  [⟨0, 0, widths 0 * thk⟩, ⟨0, 1, widths 1 * thk⟩,
   ⟨0, 2, widths 2 * thk⟩, ⟨0, 3, widths 3 * thk⟩]

/-- Embeds the `TestExplCompArraySparse` aij declaration
`(inputs["lengths"].flatten() * thk, [0], inds)`. -/
def explSparse_tv_widths (lengths : Fin 4 → ℚ) (thk : ℚ) : List Triplet :=
  [⟨0, 0, lengths 0 * thk⟩, ⟨0, 1, lengths 1 * thk⟩,
   ⟨0, 2, lengths 2 * thk⟩, ⟨0, 3, lengths 3 * thk⟩]

/-- A 1x4 row matrix from a 4-vector, the shape of the `total_volume`
partial blocks. -/
def rowMat (v : Fin 4 → ℚ) : Matrix (Fin 1) (Fin 4) ℚ :=
  Matrix.of fun _ j => v j

/-- Embeds `TestExplCompArrayDense.compute_partial_derivs` as an update of
the partials store: the four declared blocks are functions of the current
inputs only, and every other store entry is left untouched. -/
def explDense_partials (lengths widths : Fin 4 → ℚ) (thk : ℚ)
    (p : String × String → Option (ℕ → ℕ → ℚ)) :
    String × String → Option (ℕ → ℕ → ℚ) :=
  fun k =>
    if k = ("areas", "lengths") then some (mnat (explDense_areas_lengths widths))
    else if k = ("areas", "widths") then some (mnat (explDense_areas_widths lengths))
    else if k = ("total_volume", "lengths") then
      some (mnat (rowMat (explDense_tv_lengths widths thk)))
    else if k = ("total_volume", "widths") then
      some (mnat (rowMat (explDense_tv_widths lengths thk)))
    else p k

/-! ### Semi-structured metamodel setup validation (modelled from the spec) -/

/-- A single-quote character as a string, by code point. -/
def squote : String := String.mk [Char.ofNat 39]

/-- Modelled from the spec: the exact size-mismatch message of the
semi-structured metamodel training-data check (spec 4.2 and 8; the
component implementation is not under `src/`). -/
def sizeMismatchMsg (outName : String) (outLen : ℕ)
    (inName : String) (inLen : ℕ) : String :=
  "Size mismatch: training data for " ++ squote ++ outName ++ squote ++
    " is length " ++ toString outLen ++ ", but data for " ++ squote ++
    inName ++ squote ++ " is length " ++ toString inLen ++ "."

/-- Modelled from the spec: during `setup()`, before any solve runs, the
semi-structured metamodel checks every input training column against the
output training data and fails with the size-mismatch message naming the
first offending input (spec 7; the component implementation is not under
`src/`). -/
def semiStructuredSetupCheck (outName : String) (outData : List ℚ)
    (ins : List (String × List ℚ)) : Except String Unit :=
  match ins.find? (fun p => p.2.length != outData.length) with
  | some p => Except.error (sizeMismatchMsg outName outData.length p.1 p.2.length)
  | none => Except.ok ()

/-! ### Helper lemmas -/

/-- The sup norm is nonnegative. -/
theorem vnorm_nonneg {n : ℕ} (v : Fin n → ℚ) : 0 ≤ vnorm v := by
  unfold vnorm
  exact (Finset.le_fold_max 0).mpr (Or.inl le_rfl)

/-- Every component is bounded by the sup norm. -/
theorem abs_le_vnorm {n : ℕ} (v : Fin n → ℚ) (i : Fin n) : |v i| ≤ vnorm v := by
  unfold vnorm
  exact (Finset.le_fold_max _).mpr (Or.inr ⟨i, Finset.mem_univ i, le_rfl⟩)

/-- A componentwise bound gives a sup-norm bound. -/
theorem vnorm_le {n : ℕ} {v : Fin n → ℚ} {b : ℚ} (hb : 0 ≤ b)
    (h : ∀ i, |v i| ≤ b) : vnorm v ≤ b := by
  unfold vnorm
  exact (Finset.fold_max_le _).mpr ⟨hb, fun i _ => h i⟩

/-- The sup norm of the zero vector is zero. -/
theorem vnorm_zero {n : ℕ} : vnorm (0 : Fin n → ℚ) = 0 :=
  le_antisymm (vnorm_le le_rfl (fun i => by simp)) (vnorm_nonneg 0)

/-- Adjoint identity of the direct solver: dotting the forward solve of `u`
with `v` equals dotting `u` with the reverse solve of `v`. -/
theorem directSolve_adjoint {n : ℕ} (A : Matrix (Fin n) (Fin n) ℚ)
    (u v : Fin n → ℚ) :
    directSolveFwd A u ⬝ᵥ v = u ⬝ᵥ directSolveRev A v := by
  unfold directSolveRev directSolveFwd
  rw [Matrix.det_transpose, smul_dotProduct, dotProduct_smul]
  congr 1
  rw [← Matrix.adjugate_transpose, Matrix.mulVec_transpose,
    Matrix.dotProduct_comm, Matrix.dotProduct_mulVec, Matrix.dotProduct_comm]

/-- On a linear residual the direct solve returns the exact Newton
correction `y - ystar`. -/
theorem directSolveFwd_linResidual {n : ℕ} (M : Matrix (Fin n) (Fin n) ℚ)
    (b ystar : Fin n → ℚ) (hM : M.det ≠ 0) (hroot : M.mulVec ystar = b)
    (y : Fin n → ℚ) :
    directSolveFwd M (linResidual M b y) = y - ystar := by
  unfold directSolveFwd linResidual
  rw [← hroot, ← Matrix.mulVec_sub, Matrix.mulVec_mulVec, Matrix.adjugate_mul,
    Matrix.smul_mulVec_assoc, Matrix.one_mulVec, smul_smul,
    inv_mul_cancel₀ hM, one_smul]

/-- Newton on a linear residual lands on the root after the first
iteration and stays there. -/
theorem newtonIter_linear_exact {n : ℕ} (M : Matrix (Fin n) (Fin n) ℚ)
    (b ystar : Fin n → ℚ) (hM : M.det ≠ 0) (hroot : M.mulVec ystar = b) :
    ∀ (k : ℕ) (y : Fin n → ℚ),
      newtonIter M (linResidual M b) (k + 1) y = ystar := by
  intro k
  induction k with
  | zero =>
      intro y
      show newtonIter M (linResidual M b) 0
        (y - directSolveFwd M (linResidual M b y)) = ystar
      rw [directSolveFwd_linResidual M b ystar hM hroot, sub_sub_cancel]
      rfl
  | succ m ih =>
      intro y
      show newtonIter M (linResidual M b) (m + 1)
        (y - directSolveFwd M (linResidual M b y)) = ystar
      exact ih _

/-- Geometric error decay of a contractive fixed-point iteration. -/
theorem fixedPointIter_contraction {n : ℕ}
    (g : (Fin n → ℚ) → Fin n → ℚ) (ystar : Fin n → ℚ) (c : ℚ) (hc : 0 ≤ c)
    (hcontr : ∀ y, vnorm (g y - ystar) ≤ c * vnorm (y - ystar)) :
    ∀ (k : ℕ) (y0 : Fin n → ℚ),
      vnorm (fixedPointIter g k y0 - ystar) ≤ c ^ k * vnorm (y0 - ystar) := by
  intro k
  induction k with
  | zero => intro y0; simp [fixedPointIter]
  | succ m ih =>
      intro y0
      calc vnorm (fixedPointIter g (m + 1) y0 - ystar)
          = vnorm (fixedPointIter g m (g y0) - ystar) := rfl
        _ ≤ c ^ m * vnorm (g y0 - ystar) := ih (g y0)
        _ ≤ c ^ m * (c * vnorm (y0 - ystar)) :=
            mul_le_mul_of_nonneg_left (hcontr y0) (pow_nonneg hc m)
        _ = c ^ (m + 1) * vnorm (y0 - ystar) := by ring

/-- The dict-backed system operator assembles to the component matrix. -/
theorem impl4_dict_eq : impl4_dictAssembled = impl4_mtx := by
  ext i j
  fin_cases i <;> fin_cases j <;>
    simp [impl4_dictAssembled, impl4_linearize, mnat, impl4_mtx]

/-- The COO-backed system operator assembles to the component matrix. -/
theorem impl4_coo_eq : impl4_cooAssembled = impl4_mtx := by
  ext i j
  fin_cases i <;> fin_cases j <;>
    simp [impl4_cooAssembled, impl4_coo, tripletsToDense, impl4_mtx]

/-- The CSR-backed system operator assembles to the component matrix. -/
theorem impl4_csr_eq : impl4_csrAssembled = impl4_mtx := by
  ext i j
  fin_cases i <;> fin_cases j <;>
    simp [impl4_csrAssembled, csrToDense, impl4_csrRowPtr, impl4_csrColInd,
      impl4_csrVals, Finset.sum_range_succ, impl4_mtx]

/-- The dense-backed system operator assembles to the component matrix. -/
theorem impl4_dense_eq : impl4_denseAssembled = impl4_mtx := by
  ext i j
  fin_cases i <;> fin_cases j <;>
    simp [impl4_denseAssembled, denseAssemble, mnat, impl4_mtx]

/-- Forward direct solve of the 2x2 system at seed [2, 2]. -/
theorem impl4_fwd_eval : directSolveFwd impl4_mtx ![2, 2] = ![-2, 2] := by
  funext i
  fin_cases i <;>
    simp [directSolveFwd, impl4_mtx, Matrix.det_fin_two, Matrix.adjugate_fin_two,
      Matrix.mulVec, Matrix.dotProduct, Fin.sum_univ_two] <;> norm_num

/-- Reverse direct solve of the 2x2 system at seed [2, 2]. -/
theorem impl4_rev_eval : directSolveRev impl4_mtx ![2, 2] = ![2, -2] := by
  funext i
  fin_cases i <;>
    simp [directSolveRev, directSolveFwd, impl4_mtx, Matrix.det_fin_two,
      Matrix.transpose, Matrix.adjugate_fin_two, Matrix.mulVec,
      Matrix.dotProduct, Fin.sum_univ_two] <;> norm_num

/-- A Newton step on the ImplComp4Test residual lands on the solution from
any state. -/
theorem impl4_newton_step (y : Fin 2 → ℚ) :
    y - directSolveFwd impl4_mtx (impl4_apply_nonlinear ![1, 1] y) = ![-1, 1] := by
  funext i
  fin_cases i <;>
    simp [directSolveFwd, impl4_apply_nonlinear, impl4_mtx, Matrix.det_fin_two,
      Matrix.adjugate_fin_two, Matrix.mulVec, Matrix.dotProduct,
      Fin.sum_univ_two] <;> ring

/-- Newton on ImplComp4Test converges to [-1, 1] after any positive number
of iterations. -/
theorem impl4_newton_conv (k : ℕ) :
    ∀ y : Fin 2 → ℚ,
      newtonIter impl4_mtx (impl4_apply_nonlinear ![1, 1]) (k + 1) y = ![-1, 1] := by
  induction k with
  | zero => intro y; simp [newtonIter, impl4_newton_step]
  | succ m ih =>
      intro y
      have h : newtonIter impl4_mtx (impl4_apply_nonlinear ![1, 1]) (m + 2) y =
          newtonIter impl4_mtx (impl4_apply_nonlinear ![1, 1]) (m + 1)
            (y - directSolveFwd impl4_mtx (impl4_apply_nonlinear ![1, 1] y)) := rfl
      rw [h, ih]

/-! ### Claim theorems -/

/-- C1: for every supported Jacobian backing representation (dict of dense
blocks, COO, CSR, dense matrix) the assembled system operator of
`ImplComp4Test` is the same matrix [[3, 4], [2, 3]], and Newton with the
direct linear solver gives identical results on each backing: the
nonlinear solve from the default initial state converges to y = [-1, 1];
the forward-mode linear solve with d_residuals seed [2, 2] (d_outputs
zeroed) yields d_outputs = [-2, 2]; the reverse-mode linear solve with
d_outputs seed [2, 2] (d_residuals zeroed) yields d_residuals = [2, -2]. -/
theorem C1_jacobian_reps_direct_solver :
    (impl4_dictAssembled = impl4_mtx ∧ impl4_cooAssembled = impl4_mtx ∧
      impl4_csrAssembled = impl4_mtx ∧ impl4_denseAssembled = impl4_mtx)
    ∧ (newtonIter impl4_dictAssembled (impl4_apply_nonlinear ![1, 1]) 10 ![1, 1] = ![-1, 1]
        ∧ directSolveFwd impl4_dictAssembled ![2, 2] = ![-2, 2]
        ∧ directSolveRev impl4_dictAssembled ![2, 2] = ![2, -2])
    ∧ (newtonIter impl4_cooAssembled (impl4_apply_nonlinear ![1, 1]) 10 ![1, 1] = ![-1, 1]
        ∧ directSolveFwd impl4_cooAssembled ![2, 2] = ![-2, 2]
        ∧ directSolveRev impl4_cooAssembled ![2, 2] = ![2, -2])
    ∧ (newtonIter impl4_csrAssembled (impl4_apply_nonlinear ![1, 1]) 10 ![1, 1] = ![-1, 1]
        ∧ directSolveFwd impl4_csrAssembled ![2, 2] = ![-2, 2]
        ∧ directSolveRev impl4_csrAssembled ![2, 2] = ![2, -2])
    ∧ (newtonIter impl4_denseAssembled (impl4_apply_nonlinear ![1, 1]) 10 ![1, 1] = ![-1, 1]
        ∧ directSolveFwd impl4_denseAssembled ![2, 2] = ![-2, 2]
        ∧ directSolveRev impl4_denseAssembled ![2, 2] = ![2, -2]) := by
  have t1 : newtonIter impl4_mtx (impl4_apply_nonlinear ![1, 1]) 10 ![1, 1] = ![-1, 1] :=
    impl4_newton_conv 9 ![1, 1]
  refine ⟨⟨impl4_dict_eq, impl4_coo_eq, impl4_csr_eq, impl4_dense_eq⟩,
    ⟨?_, ?_, ?_⟩, ⟨?_, ?_, ?_⟩, ⟨?_, ?_, ?_⟩, ⟨?_, ?_, ?_⟩⟩ <;>
    simp only [impl4_dict_eq, impl4_coo_eq, impl4_csr_eq, impl4_dense_eq] <;>
    first
      | exact t1
      | exact impl4_fwd_eval
      | exact impl4_rev_eval

/-- C2: adjoint consistency of the linear solves — for every linearized
system matrix and every pair of seed vectors `u`, `v`, the inner product of
the forward-mode solve of `u` with `v` equals the inner product of `u` with
the reverse-mode solve of `v` (exactly, hence within any tolerance). -/
theorem C2_adjoint_consistency (n : ℕ) (A : Matrix (Fin n) (Fin n) ℚ)
    (u v : Fin n → ℚ) :
    directSolveFwd A u ⬝ᵥ v = u ⬝ᵥ directSolveRev A v :=
  directSolve_adjoint A u v

/-- C8: partials are a pure function of the current inputs and outputs.
Running `ImplComp4Test.linearize` or
`TestExplCompArrayDense.compute_partial_derivs` against two arbitrary
prior partials-store states yields identical values on every declared
entry, and re-running with unchanged inputs leaves the whole store
bit-identical (idempotence). -/
theorem C8_linearize_pure
    (x y : Fin 2 → ℚ) (p₁ p₂ : String × String → Option (ℕ → ℕ → ℚ))
    (lengths widths : Fin 4 → ℚ) (thk : ℚ)
    (q₁ q₂ : String × String → Option (ℕ → ℕ → ℚ)) :
    impl4_linearize x y p₁ ("y", "y") = impl4_linearize x y p₂ ("y", "y")
    ∧ impl4_linearize x y p₁ ("y", "x") = impl4_linearize x y p₂ ("y", "x")
    ∧ impl4_linearize x y (impl4_linearize x y p₁) = impl4_linearize x y p₁
    ∧ explDense_partials lengths widths thk q₁ ("areas", "lengths") =
        explDense_partials lengths widths thk q₂ ("areas", "lengths")
    ∧ explDense_partials lengths widths thk q₁ ("areas", "widths") =
        explDense_partials lengths widths thk q₂ ("areas", "widths")
    ∧ explDense_partials lengths widths thk q₁ ("total_volume", "lengths") =
        explDense_partials lengths widths thk q₂ ("total_volume", "lengths")
    ∧ explDense_partials lengths widths thk q₁ ("total_volume", "widths") =
        explDense_partials lengths widths thk q₂ ("total_volume", "widths")
    ∧ explDense_partials lengths widths thk (explDense_partials lengths widths thk q₁) =
        explDense_partials lengths widths thk q₁ := by
  refine ⟨by simp [impl4_linearize], by simp [impl4_linearize], ?_,
    by simp [explDense_partials], by simp [explDense_partials],
    by simp [explDense_partials], by simp [explDense_partials], ?_⟩
  · funext k
    by_cases h1 : k = ("y", "x")
    · simp [impl4_linearize, h1]
    · by_cases h2 : k = ("y", "y")
      · simp [impl4_linearize, h1, h2]
      · simp [impl4_linearize, h1, h2]
  · funext k
    by_cases h1 : k = ("areas", "lengths")
    · simp [explDense_partials, h1]
    · by_cases h2 : k = ("areas", "widths")
      · simp [explDense_partials, h1, h2]
      · by_cases h3 : k = ("total_volume", "lengths")
        · simp [explDense_partials, h1, h2, h3]
        · by_cases h4 : k = ("total_volume", "widths")
          · simp [explDense_partials, h1, h2, h3, h4]
          · simp [explDense_partials, h1, h2, h3, h4]

/-- C9: the three partial-declaration styles of the explicit array test
component — dense blocks, scipy CSR matrices built from triplets, and aij
sparse triplets — declare mathematically identical Jacobian blocks: at
every input value and every position of the declared block shape, each
sparse form expanded to a dense matrix equals the dense declaration. -/
theorem C9_partial_styles_equivalent
    (lengths widths : Fin 4 → ℚ) (thk : ℚ) (i j : Fin 4) :
    tripletsToDense (explSpmtx_areas_lengths widths) (i : ℕ) (j : ℕ) =
        explDense_areas_lengths widths i j
    ∧ tripletsToDense (explSparse_areas_lengths widths) (i : ℕ) (j : ℕ) =
        explDense_areas_lengths widths i j
    ∧ tripletsToDense (explSpmtx_areas_widths lengths) (i : ℕ) (j : ℕ) =
        explDense_areas_widths lengths i j
    ∧ tripletsToDense (explSparse_areas_widths lengths) (i : ℕ) (j : ℕ) =
        explDense_areas_widths lengths i j
    ∧ tripletsToDense (explSpmtx_tv_lengths widths thk) 0 (j : ℕ) =
        explDense_tv_lengths widths thk j
    ∧ tripletsToDense (explSparse_tv_lengths widths thk) 0 (j : ℕ) =
        explDense_tv_lengths widths thk j
    ∧ tripletsToDense (explSpmtx_tv_widths lengths thk) 0 (j : ℕ) =
        explDense_tv_widths lengths thk j
    ∧ tripletsToDense (explSparse_tv_widths lengths thk) 0 (j : ℕ) =
        explDense_tv_widths lengths thk j := by
  refine ⟨?_, ?_, ?_, ?_, ?_, ?_, ?_, ?_⟩ <;>
    fin_cases i <;> fin_cases j <;>
      simp [tripletsToDense, explSpmtx_areas_lengths, explSparse_areas_lengths,
        explSpmtx_areas_widths, explSparse_areas_widths,
        explSpmtx_tv_lengths, explSparse_tv_lengths,
        explSpmtx_tv_widths, explSparse_tv_widths,
        explDense_areas_lengths, explDense_areas_widths,
        explDense_tv_lengths, explDense_tv_widths, Matrix.diagonal]

/-- C10: the partials set by `ImplComp4Test.linearize` (d residual/d y =
[[3, 4], [2, 3]], d residual/d x = minus identity) are exactly the Jacobian
of the residual computed by `apply_nonlinear` at every input/output value;
the residual has a unique root for each x; and with the default
x = [1, 1] the Newton solve converges to y = [-1, 1], at which the
residual vanishes. -/
theorem C10_impl4_partials_consistency :
    (∀ x y dy : Fin 2 → ℚ,
        impl4_apply_nonlinear x (y + dy) - impl4_apply_nonlinear x y =
          impl4_mtx.mulVec dy)
    ∧ (∀ x y dx : Fin 2 → ℚ,
        impl4_apply_nonlinear (x + dx) y - impl4_apply_nonlinear x y =
          (-1 : Matrix (Fin 2) (Fin 2) ℚ).mulVec dx)
    ∧ (∀ (x y : Fin 2 → ℚ) (p : String × String → Option (ℕ → ℕ → ℚ)),
        impl4_linearize x y p ("y", "y") = some (mnat impl4_mtx) ∧
        impl4_linearize x y p ("y", "x") =
          some (mnat (-1 : Matrix (Fin 2) (Fin 2) ℚ)))
    ∧ (∀ x : Fin 2 → ℚ, ∃! y : Fin 2 → ℚ, impl4_apply_nonlinear x y = 0)
    ∧ impl4_apply_nonlinear ![1, 1] ![-1, 1] = 0
    ∧ newtonIter impl4_mtx (impl4_apply_nonlinear ![1, 1]) 10 ![1, 1] = ![-1, 1] := by
  refine ⟨?_, ?_, ?_, ?_, ?_, impl4_newton_conv 9 ![1, 1]⟩
  · intro x y dy
    unfold impl4_apply_nonlinear
    rw [Matrix.mulVec_add]
    abel
  · intro x y dx
    unfold impl4_apply_nonlinear
    rw [Matrix.neg_mulVec, Matrix.one_mulVec]
    abel
  · intro x y p
    constructor <;> simp [impl4_linearize]
  · intro x
    refine ⟨![3 * x 0 - 4 * x 1, -2 * x 0 + 3 * x 1], ?_, ?_⟩
    · funext i
      fin_cases i <;>
        simp [impl4_apply_nonlinear, impl4_mtx, Matrix.mulVec,
          Matrix.dotProduct, Fin.sum_univ_two] <;> ring
    · intro y' h'
      have h0 := congrFun h' 0
      have h1 := congrFun h' 1
      simp [impl4_apply_nonlinear, impl4_mtx, Matrix.mulVec,
        Matrix.dotProduct, Fin.sum_univ_two] at h0 h1
      funext i
      fin_cases i <;> simp <;> linarith
  · funext i
    fin_cases i <;>
      simp [impl4_apply_nonlinear, impl4_mtx, Matrix.mulVec,
        Matrix.dotProduct, Fin.sum_univ_two] <;> norm_num

/-- Forward direct solves are additive in the seed. -/
theorem directSolveFwd_add {n : ℕ} (A : Matrix (Fin n) (Fin n) ℚ)
    (u v : Fin n → ℚ) :
    directSolveFwd A (u + v) = directSolveFwd A u + directSolveFwd A v := by
  unfold directSolveFwd
  rw [Matrix.mulVec_add, smul_add]

/-- Forward direct solves commute with scalar seeds. -/
theorem directSolveFwd_smul {n : ℕ} (A : Matrix (Fin n) (Fin n) ℚ)
    (c : ℚ) (u : Fin n → ℚ) :
    directSolveFwd A (c • u) = c • directSolveFwd A u := by
  unfold directSolveFwd
  rw [Matrix.mulVec_smul, smul_comm]

/-- Finite differencing a linear residual recovers its Jacobian exactly,
for every nonzero step. -/
theorem fdJac_linResidual {n : ℕ} (M : Matrix (Fin n) (Fin n) ℚ)
    (b y : Fin n → ℚ) (h : ℚ) (hh : h ≠ 0) :
    fdJac (linResidual M b) y h = M := by
  ext i j
  simp only [fdJac, linResidual, Matrix.of_apply, Matrix.mulVec_add,
    Matrix.mulVec_smul, Matrix.mulVec_single, Pi.add_apply, Pi.sub_apply,
    Pi.smul_apply, smul_eq_mul, mul_one]
  ring_nf
  field_simp

/-- Forward- and reverse-mode total derivatives of the linearized model
coincide for every (response, design) pair. -/
theorem totalDeriv_fwd_eq_rev {n m : ℕ} (M : Matrix (Fin n) (Fin n) ℚ)
    (P : Matrix (Fin n) (Fin m) ℚ) (g : Fin n → ℚ) (d : Fin m) :
    totalDerivFwd M P g d = totalDerivRev M P g d := by
  unfold totalDerivFwd totalDerivRev
  rw [Matrix.dotProduct_comm g, directSolve_adjoint, Matrix.dotProduct_comm]

/-- The finite-difference total-derivative reference equals the
forward-mode total derivative exactly on the linearized model. -/
theorem fdTotalDeriv_eq_fwd {n m : ℕ} (M : Matrix (Fin n) (Fin n) ℚ)
    (P : Matrix (Fin n) (Fin m) ℚ) (g : Fin n → ℚ) (x : Fin m → ℚ)
    (d : Fin m) (h : ℚ) (hh : h ≠ 0) :
    fdTotalDeriv M P g x d h = totalDerivFwd M P g d := by
  unfold fdTotalDeriv solvedOutputs totalDerivFwd
  rw [Matrix.mulVec_add, Matrix.mulVec_smul, directSolveFwd_add,
    directSolveFwd_smul, dotProduct_add, dotProduct_smul]
  simp only [smul_eq_mul, add_sub_cancel_left]
  exact mul_div_cancel_left₀ _ hh

/-- Positions untouched by every block assemble to zero. -/
theorem denseAssemble_untouched (blocks : List JBlock) (i j : ℕ)
    (h : ∀ b ∈ blocks,
      ¬(b.r0 ≤ i ∧ i < b.r0 + b.nr ∧ b.c0 ≤ j ∧ j < b.c0 + b.nc)) :
    denseAssemble blocks i j = 0 := by
  apply List.sum_eq_zero
  intro q hq
  simp only [List.mem_map] at hq
  obtain ⟨b, hb, rfl⟩ := hq
  rw [if_neg (h b hb)]

/-- Dense assembly is additive over block lists. -/
theorem denseAssemble_append (bs1 bs2 : List JBlock) (i j : ℕ) :
    denseAssemble (bs1 ++ bs2) i j =
      denseAssemble bs1 i j + denseAssemble bs2 i j := by
  unfold denseAssemble
  rw [List.map_append, List.sum_append]

/-- Positions untouched by every triplet assemble to zero. -/
theorem tripletsToDense_untouched (ts : List Triplet) (i j : ℕ)
    (h : ∀ t ∈ ts, ¬(t.row = i ∧ t.col = j)) :
    tripletsToDense ts i j = 0 := by
  induction ts with
  | nil => rfl
  | cons t ts ih =>
      have ht := h t (List.mem_cons_self t ts)
      simp only [tripletsToDense, if_neg ht, zero_add]
      exact ih (fun s hs => h s (List.mem_cons_of_mem t hs))

/-- Triplet assembly is additive over entry lists. -/
theorem tripletsToDense_append (ts1 ts2 : List Triplet) (i j : ℕ) :
    tripletsToDense (ts1 ++ ts2) i j =
      tripletsToDense ts1 i j + tripletsToDense ts2 i j := by
  induction ts1 with
  | nil => simp [tripletsToDense]
  | cons t ts ih =>
      simp only [List.cons_append, tripletsToDense, List.append_eq]
      rw [ih]
      ring

/-- Two blocks declared at the same (row-block, col-block) position
accumulate: the assembled entry is the sum of the two declared values. -/
theorem denseAssemble_pair (r0 c0 nr nc : ℕ) (f g : ℕ → ℕ → ℚ) (i j : ℕ)
    (hcov : r0 ≤ i ∧ i < r0 + nr ∧ c0 ≤ j ∧ j < c0 + nc) :
    denseAssemble [⟨r0, c0, nr, nc, f⟩, ⟨r0, c0, nr, nc, g⟩] i j =
      f (i - r0) (j - c0) + g (i - r0) (j - c0) := by
  unfold denseAssemble
  simp [if_pos hcov]

/-- C3: for every solvable linearized system and every
(response, design-variable) pair, the total derivative computed in forward
mode equals the one computed in reverse mode, and both agree exactly (hence
within 1e-7) with the finite-difference reference for any nonzero step;
with finite-differenced partials the totals are unchanged, hence within
1e-5 of the reference. -/
theorem C3_totals_fwd_rev_fd (n m : ℕ) (M : Matrix (Fin n) (Fin n) ℚ)
    (P : Matrix (Fin n) (Fin m) ℚ) (g : Fin n → ℚ) (d : Fin m)
    (x : Fin m → ℚ) (b ylin : Fin n → ℚ) (h : ℚ)
    (_hM : M.det ≠ 0) (hh : h ≠ 0) :
    totalDerivFwd M P g d = totalDerivRev M P g d
    ∧ fdTotalDeriv M P g x d h = totalDerivFwd M P g d
    ∧ |totalDerivFwd M P g d - fdTotalDeriv M P g x d h| ≤ 1 / 10 ^ 7
    ∧ totalDerivFwd (fdJac (linResidual M b) ylin h) P g d = totalDerivFwd M P g d
    ∧ |totalDerivFwd (fdJac (linResidual M b) ylin h) P g d -
        fdTotalDeriv M P g x d h| ≤ 1 / 10 ^ 5 := by
  have ffd := fdTotalDeriv_eq_fwd M P g x d h hh
  have hJ : fdJac (linResidual M b) ylin h = M := fdJac_linResidual M b ylin h hh
  refine ⟨totalDeriv_fwd_eq_rev M P g d, ffd, ?_, by rw [hJ], ?_⟩
  · rw [ffd, sub_self, abs_zero]
    norm_num
  · rw [hJ, ffd, sub_self, abs_zero]
    norm_num

/-- Witness for C3 at the 2x2 system of the test suite (M = [[3,4],[2,3]],
P the identity, response seed [1,0], design 0, FD step 1). -/
theorem C3_totals_fwd_rev_fd_witness :
    (Matrix.det !![(3 : ℚ), 4; 2, 3] ≠ 0 ∧ (1 : ℚ) ≠ 0)
    ∧ (totalDerivFwd !![(3 : ℚ), 4; 2, 3] (1 : Matrix (Fin 2) (Fin 2) ℚ) ![1, 0] 0 =
        totalDerivRev !![(3 : ℚ), 4; 2, 3] (1 : Matrix (Fin 2) (Fin 2) ℚ) ![1, 0] 0
      ∧ fdTotalDeriv !![(3 : ℚ), 4; 2, 3] (1 : Matrix (Fin 2) (Fin 2) ℚ) ![1, 0] 0 0 1 =
        totalDerivFwd !![(3 : ℚ), 4; 2, 3] (1 : Matrix (Fin 2) (Fin 2) ℚ) ![1, 0] 0
      ∧ |totalDerivFwd !![(3 : ℚ), 4; 2, 3] (1 : Matrix (Fin 2) (Fin 2) ℚ) ![1, 0] 0 -
          fdTotalDeriv !![(3 : ℚ), 4; 2, 3] (1 : Matrix (Fin 2) (Fin 2) ℚ) ![1, 0] 0 0 1| ≤ 1 / 10 ^ 7
      ∧ totalDerivFwd (fdJac (linResidual !![(3 : ℚ), 4; 2, 3] 0) 0 1)
            (1 : Matrix (Fin 2) (Fin 2) ℚ) ![1, 0] 0 =
          totalDerivFwd !![(3 : ℚ), 4; 2, 3] (1 : Matrix (Fin 2) (Fin 2) ℚ) ![1, 0] 0
      ∧ |totalDerivFwd (fdJac (linResidual !![(3 : ℚ), 4; 2, 3] 0) 0 1)
            (1 : Matrix (Fin 2) (Fin 2) ℚ) ![1, 0] 0 -
          fdTotalDeriv !![(3 : ℚ), 4; 2, 3] (1 : Matrix (Fin 2) (Fin 2) ℚ) ![1, 0] 0 0 1| ≤ 1 / 10 ^ 5) :=
  ⟨⟨by norm_num [Matrix.det_fin_two_of], by norm_num⟩,
    C3_totals_fwd_rev_fd 2 2 !![(3 : ℚ), 4; 2, 3] 1 ![1, 0] 0 0 0 0 1
      (by norm_num [Matrix.det_fin_two_of]) (by norm_num)⟩

/-- C4: for the cycle benchmark state size (200 components times 5
variables of shape (3,)), a contractive nonlinear block Gauss-Seidel sweep
run for maxiter = 100 converges to within 1e-7 of the root, Newton with
the direct solver run for maxiter = 20 reaches the same root exactly,
forward- and reverse-mode total derivatives of the linearization agree,
and finite-differenced partials leave the totals unchanged (hence within
the 1e-5 bound of the finite-difference benchmark variant). -/
theorem C4_cycle_solvers_agree
    (g : (Fin cycleDim → ℚ) → Fin cycleDim → ℚ) (ystar y0 : Fin cycleDim → ℚ)
    (M : Matrix (Fin cycleDim) (Fin cycleDim) ℚ) (b : Fin cycleDim → ℚ)
    (P : Matrix (Fin cycleDim) (Fin cycleDim) ℚ) (resp : Fin cycleDim → ℚ)
    (d : Fin cycleDim) (ylin : Fin cycleDim → ℚ) (h : ℚ)
    (hM : M.det ≠ 0) (hroot : M.mulVec ystar = b)
    (hcontr : ∀ y, vnorm (g y - ystar) ≤ (1 / 2) * vnorm (y - ystar))
    (hinit : vnorm (y0 - ystar) ≤ 1) (hh : h ≠ 0) :
    vnorm (fixedPointIter g 100 y0 - ystar) ≤ 1 / 10 ^ 7
    ∧ newtonIter M (linResidual M b) 20 y0 = ystar
    ∧ totalDerivFwd M P resp d = totalDerivRev M P resp d
    ∧ totalDerivFwd (fdJac (linResidual M b) ylin h) P resp d =
        totalDerivFwd M P resp d := by
  refine ⟨?_, newtonIter_linear_exact M b ystar hM hroot 19 y0,
    totalDeriv_fwd_eq_rev M P resp d,
    by rw [fdJac_linResidual M b ylin h hh]⟩
  have h1 := fixedPointIter_contraction g ystar (1 / 2) (by norm_num) hcontr 100 y0
  have h2 : ((1 : ℚ) / 2) ^ 100 * vnorm (y0 - ystar) ≤ (1 / 2) ^ 100 * 1 :=
    mul_le_mul_of_nonneg_left hinit (by positivity)
  have h3 : ((1 : ℚ) / 2) ^ 100 * 1 ≤ 1 / 10 ^ 7 := by norm_num
  exact le_trans h1 (le_trans h2 h3)

/-- The identity system operator has nonzero determinant. -/
theorem det_one_ne_zero {n : ℕ} :
    (Matrix.det (1 : Matrix (Fin n) (Fin n) ℚ)) ≠ 0 := by
  rw [Matrix.det_one]; norm_num

/-- The identity operator maps the zero state to the zero residual seed. -/
theorem one_mulVec_zero {n : ℕ} :
    (1 : Matrix (Fin n) (Fin n) ℚ).mulVec 0 = 0 :=
  Matrix.mulVec_zero 1

/-- The constantly-zero sweep is a 1/2-contraction toward the zero root. -/
theorem zeroSweep_contractive {n : ℕ} (y : Fin n → ℚ) :
    vnorm ((fun _ : Fin n → ℚ => (0 : Fin n → ℚ)) y - 0) ≤
      (1 / 2) * vnorm (y - 0) := by
  rw [show (fun _ : Fin n → ℚ => (0 : Fin n → ℚ)) y - 0 = 0 by simp, vnorm_zero]
  exact mul_nonneg (by norm_num) (vnorm_nonneg _)

/-- Starting at the root, the initial error is within 1. -/
theorem zero_init_err {n : ℕ} : vnorm ((0 : Fin n → ℚ) - 0) ≤ 1 := by
  rw [show (0 : Fin n → ℚ) - 0 = 0 by simp, vnorm_zero]
  norm_num

/-- Witness for C4: the trivial contractive instance at the full benchmark
state size (identity Jacobian, zero root, sweep map constantly zero). -/
theorem C4_cycle_solvers_agree_witness :
    (Matrix.det (1 : Matrix (Fin cycleDim) (Fin cycleDim) ℚ) ≠ 0
      ∧ (1 : Matrix (Fin cycleDim) (Fin cycleDim) ℚ).mulVec 0 = 0
      ∧ (∀ y : Fin cycleDim → ℚ,
          vnorm ((fun _ : Fin cycleDim → ℚ => (0 : Fin cycleDim → ℚ)) y - 0) ≤
            (1 / 2) * vnorm (y - 0))
      ∧ vnorm ((0 : Fin cycleDim → ℚ) - 0) ≤ 1
      ∧ (1 : ℚ) ≠ 0)
    ∧ (vnorm (fixedPointIter (fun _ : Fin cycleDim → ℚ => (0 : Fin cycleDim → ℚ)) 100 0 - 0) ≤ 1 / 10 ^ 7
      ∧ newtonIter (1 : Matrix (Fin cycleDim) (Fin cycleDim) ℚ)
          (linResidual (1 : Matrix (Fin cycleDim) (Fin cycleDim) ℚ) 0) 20 0 = 0
      ∧ totalDerivFwd (1 : Matrix (Fin cycleDim) (Fin cycleDim) ℚ) 1 0 (⟨0, by norm_num [cycleDim]⟩ : Fin cycleDim) =
          totalDerivRev (1 : Matrix (Fin cycleDim) (Fin cycleDim) ℚ) 1 0 (⟨0, by norm_num [cycleDim]⟩ : Fin cycleDim)
      ∧ totalDerivFwd
          (fdJac (linResidual (1 : Matrix (Fin cycleDim) (Fin cycleDim) ℚ) 0) 0 1) 1 0
            (⟨0, by norm_num [cycleDim]⟩ : Fin cycleDim) =
          totalDerivFwd (1 : Matrix (Fin cycleDim) (Fin cycleDim) ℚ) 1 0 (⟨0, by norm_num [cycleDim]⟩ : Fin cycleDim)) :=
  ⟨⟨det_one_ne_zero, one_mulVec_zero, zeroSweep_contractive, zero_init_err,
    by norm_num⟩,
    C4_cycle_solvers_agree (fun _ => 0) 0 0 1 0 1 0 (⟨0, by norm_num [cycleDim]⟩ : Fin cycleDim) 0 1
      det_one_ne_zero one_mulVec_zero zeroSweep_contractive zero_init_err
      (by norm_num)⟩

/-- C5: a semi-structured metamodel whose output training data has length 3
while input x has training data of length 4 fails the eager setup check —
before any solve — with exactly the message "Size mismatch: training data
for (quote)f(quote) is length 3, but data for (quote)x(quote) is length
4."; matching lengths pass the check. -/
theorem C5_size_mismatch_error :
    semiStructuredSetupCheck "f" [1, 2, 3]
        [("x", [1, 1, 2, 2]), ("y", [1, 2, 1, 2])] =
      Except.error ("Size mismatch: training data for " ++ squote ++ "f" ++
        squote ++ " is length 3, but data for " ++ squote ++ "x" ++ squote ++
        " is length 4.")
    ∧ semiStructuredSetupCheck "f" [1, 2, 3]
        [("x", [1, 1, 2]), ("y", [1, 2, 1])] = Except.ok () := by
  constructor <;> rfl

/-- C6: a nonlinear solver that reaches maxiter with the convergence test
never passing reports failure through the caller-visible flag — it does
not raise — and the variable vector holds the last iterate (the state is
neither rolled back nor cleared). -/
theorem C6_maxiter_failure_flag {n : ℕ}
    (step : (Fin n → ℚ) → Fin n → ℚ) (convTest : (Fin n → ℚ) → Bool)
    (maxiter : ℕ) (y0 : Fin n → ℚ)
    (hfail : ∀ k, convTest (fixedPointIter step k y0) = false) :
    (runNonlinear step convTest maxiter y0).converged = false
    ∧ (runNonlinear step convTest maxiter y0).y =
        fixedPointIter step maxiter y0 := by
  induction maxiter generalizing y0 with
  | zero => exact ⟨hfail 0, rfl⟩
  | succ m ih =>
      have h0 : convTest y0 = false := hfail 0
      have hred : runNonlinear step convTest (m + 1) y0 =
          runNonlinear step convTest m (step y0) := by
        simp [runNonlinear, h0]
      have hiter : fixedPointIter step (m + 1) y0 =
          fixedPointIter step m (step y0) := rfl
      rw [hred, hiter]
      exact ih (step y0) (fun k => hfail (k + 1))

/-- Witness for C6: a one-variable solver whose convergence test never
passes, run for three iterations from 0 with step y := y + 1. -/
theorem C6_maxiter_failure_flag_witness :
    (∀ k : ℕ, (fun _ : Fin 1 → ℚ => false)
        (fixedPointIter (fun y : Fin 1 → ℚ => y + 1) k ![0]) = false)
    ∧ ((runNonlinear (fun y : Fin 1 → ℚ => y + 1) (fun _ => false) 3 ![0]).converged = false
      ∧ (runNonlinear (fun y : Fin 1 → ℚ => y + 1) (fun _ => false) 3 ![0]).y =
          fixedPointIter (fun y : Fin 1 → ℚ => y + 1) 3 ![0]) :=
  ⟨fun _ => rfl,
    C6_maxiter_failure_flag (fun y => y + 1) (fun _ => false) 3 ![0] (fun _ => rfl)⟩

/-- C7: in the assembled Jacobian every entry not covered by any declared
partial is zero (for both the dense-block store and the triplet store), and
assembly is additive over declarations, so two partials declared for the
same (row-block, col-block) position produce the sum of the declared
values, not the last one declared. -/
theorem C7_assembly_zero_and_accumulate
    (blocks extra : List JBlock) (ts1 ts2 : List Triplet) (i j : ℕ)
    (r0 c0 nr nc : ℕ) (f g : ℕ → ℕ → ℚ)
    (hcov : r0 ≤ i ∧ i < r0 + nr ∧ c0 ≤ j ∧ j < c0 + nc)
    (huntouched : ∀ b ∈ blocks,
      ¬(b.r0 ≤ i ∧ i < b.r0 + b.nr ∧ b.c0 ≤ j ∧ j < b.c0 + b.nc))
    (hts : ∀ t ∈ ts1, ¬(t.row = i ∧ t.col = j)) :
    denseAssemble blocks i j = 0
    ∧ tripletsToDense ts1 i j = 0
    ∧ denseAssemble (blocks ++ extra) i j =
        denseAssemble blocks i j + denseAssemble extra i j
    ∧ tripletsToDense (ts1 ++ ts2) i j =
        tripletsToDense ts1 i j + tripletsToDense ts2 i j
    ∧ denseAssemble [⟨r0, c0, nr, nc, f⟩, ⟨r0, c0, nr, nc, g⟩] i j =
        f (i - r0) (j - c0) + g (i - r0) (j - c0) :=
  ⟨denseAssemble_untouched blocks i j huntouched,
    tripletsToDense_untouched ts1 i j hts,
    denseAssemble_append blocks extra i j,
    tripletsToDense_append ts1 ts2 i j,
    denseAssemble_pair r0 c0 nr nc f g i j hcov⟩

/-- Witness for C7 at entry (5, 0): one 2x2 block at offset (0, 0) and one
triplet at (0, 0) leave the entry untouched; two 2x1 blocks at offset
(4, 0) cover it and accumulate. -/
theorem C7_assembly_zero_and_accumulate_witness :
    ((4 ≤ 5 ∧ 5 < 4 + 2 ∧ 0 ≤ 0 ∧ 0 < 0 + 1)
      ∧ (∀ b ∈ [(⟨0, 0, 2, 2, fun _ _ => 5⟩ : JBlock)],
          ¬(b.r0 ≤ 5 ∧ 5 < b.r0 + b.nr ∧ b.c0 ≤ 0 ∧ 0 < b.c0 + b.nc))
      ∧ (∀ t ∈ [(⟨0, 0, 3⟩ : Triplet)], ¬(t.row = 5 ∧ t.col = 0)))
    ∧ (denseAssemble [⟨0, 0, 2, 2, fun _ _ => 5⟩] 5 0 = 0
      ∧ tripletsToDense [⟨0, 0, 3⟩] 5 0 = 0
      ∧ denseAssemble ([⟨0, 0, 2, 2, fun _ _ => 5⟩] ++ []) 5 0 =
          denseAssemble [⟨0, 0, 2, 2, fun _ _ => 5⟩] 5 0 + denseAssemble [] 5 0
      ∧ tripletsToDense ([⟨0, 0, 3⟩] ++ []) 5 0 =
          tripletsToDense [⟨0, 0, 3⟩] 5 0 + tripletsToDense [] 5 0
      ∧ denseAssemble [⟨4, 0, 2, 1, fun _ _ => 2⟩, ⟨4, 0, 2, 1, fun _ _ => 3⟩] 5 0 =
          (fun _ _ => (2 : ℚ)) (5 - 4) (0 - 0) + (fun _ _ => (3 : ℚ)) (5 - 4) (0 - 0)) :=
  ⟨⟨by norm_num,
    by intro b hb; simp only [List.mem_singleton] at hb; subst hb; norm_num,
    by intro t ht; simp only [List.mem_singleton] at ht; subst ht; norm_num⟩,
    C7_assembly_zero_and_accumulate [⟨0, 0, 2, 2, fun _ _ => 5⟩] []
      [⟨0, 0, 3⟩] [] 5 0 4 0 2 1 (fun _ _ => 2) (fun _ _ => 3)
      (by norm_num)
      (by intro b hb; simp only [List.mem_singleton] at hb; subst hb; norm_num)
      (by intro t ht; simp only [List.mem_singleton] at ht; subst ht; norm_num)⟩
